import Mathlib

/-!
Verification development for the `room` RESP proxy (Go sources).

The definitions below are shallow embeddings of the Go functions, translated
directly from the source files:
  - `src/unnamed/part_000` (package `service`): `RedisValue`, the
    single-key document upsert, and the bulk record upserts;
  - `src/base/hash_tag_event.go`: the hash-tag event pipeline;
  - `src/base/db.go`: the CRC32 shard mapper;
  - `src/service/service_server.go`: the per-connection command dispatcher.

Modelling conventions:
  - Go `time.Time` values are modelled as `Int` millisecond timestamps since
    the Unix epoch.  Go's zero `time.Time` (year 1, Jan 1, UTC) corresponds to
    the millisecond timestamp `goZeroTimeMS`; `t.IsZero()` becomes
    `t = goZeroTimeMS`.  Sub-millisecond precision is irrelevant to every
    property proved here (see the comments on `RedisValue.TTL`).
  - Go durations are modelled in milliseconds as well; this only rescales the
    positive branch of `TTL` and keeps the -1 / 0 / positive trichotomy.
  - Database tables are modelled as lists of rows; a `pg` channel or map is a
    list; machine integers are `Int`/`Nat` (no arithmetic here overflows).
-/

namespace Room

/-- Millisecond timestamp of Go's zero `time.Time` (0001-01-01T00:00:00Z). -/
def goZeroTimeMS : Int := -62135596800000

/-! ## RedisValue (src/unnamed/part_000, lines 24-64) -/

/-- Embeds the Go struct `RedisValue` (kind tag, opaque payload, last-synced
millisecond timestamp, expiry millisecond timestamp; 0 = no expiry). -/
structure RedisValue where
  type : String
  value : String
  syncedTs : Int
  expireTs : Int
deriving DecidableEq

/-- Embeds `RedisValue.IsExpired`: Go returns `false` when `ExpireTs == 0` or
when `t.IsZero()`, else `utility.TimestampInMS(t) >= v.ExpireTs`. -/
def RedisValue.IsExpired (v : RedisValue) (t : Int) : Bool :=
  if v.expireTs = 0 then false
  else if t = goZeroTimeMS then false
  else v.expireTs ≤ t

/-- Embeds `RedisValue.TTL`.  Go computes the exact duration from `t` to the
expiry instant and clamps negatives to 0, returning `time.Duration(-1)` when
there is no expiry.  Modelled in milliseconds: since `expireTs` is an integral
millisecond and `TimestampInMS` floors, `TTL = 0 ↔ expireTs ≤ t` in both the
nanosecond and the millisecond reading, and the positive branch is the
remainder until expiry. -/
def RedisValue.TTL (v : RedisValue) (t : Int) : Int :=
  if v.expireTs = 0 then -1
  else
    let duration := v.expireTs - t
    if duration < 0 then 0 else duration

/-- Embeds `RedisValue.IsZero`: the zero sentinel has an empty kind tag. -/
def RedisValue.IsZero (v : RedisValue) : Bool :=
  v.type == ""

/-! ## StringSet and HashTagEvent (src/base/hash_tag_event.go, lines 36-83)

`utility.StringSet` (a Go `map[string]struct{}`) is modelled as a duplicate-free
`List String`; `AddItems` inserts each item not already present.  Go map
iteration order is unspecified, so only membership in these lists is meaningful.
-/

/-- One step of `StringSet.AddItems`: insert `x` unless already present. -/
def setAddItem (s : List String) (x : String) : List String :=
  if x ∈ s then s else s ++ [x]

/-- Embeds `StringSet.AddItems`: insert every item of `items`. -/
def setAddItems (s : List String) (items : List String) : List String :=
  items.foldl setAddItem s

/-- Embeds `utility.NewStringSet`: the set of the given keys. -/
def newStringSet (keys : List String) : List String :=
  setAddItems [] keys

/-- Embeds the Go struct `HashTagEvent` (hash tag, key set, access mode,
access time).  `AccessMode` is the Go string type `HashTagAccessMode`. -/
structure HashTagEvent where
  hashTag : String
  keys : List String
  accessMode : String
  accessTime : Int
deriving DecidableEq

/-- The validation errors of `HashTagEvent.Check`. -/
inductive EventCheckErr where
  | hashKeyEmpty
  | accessModeEmpty
  | accessTimeEmpty
  | noKeys
deriving DecidableEq

/-- Embeds `HashTagEvent.Check` (checks in source order). -/
def HashTagEvent.Check (e : HashTagEvent) : Option EventCheckErr :=
  if e.hashTag = "" then some .hashKeyEmpty
  else if e.accessMode = "" then some .accessModeEmpty
  else if e.accessTime = goZeroTimeMS then some .accessTimeEmpty
  else if e.keys = [] then some .noKeys
  else none

/-- Embeds `NewHashTagEvent`: build the event (deduplicating the keys into a
`StringSet`) and validate it. -/
def NewHashTagEvent (hashTag : String) (keys : List String)
    (accessMode : String) (accessTime : Int) : Except EventCheckErr HashTagEvent :=
  let event : HashTagEvent :=
    { hashTag := hashTag, keys := newStringSet keys
      accessMode := accessMode, accessTime := accessTime }
  match event.Check with
  | some err => .error err
  | none => .ok event

/-- Errors returned by `HashTagEventService.SendEvent`: a validation error from
`NewHashTagEvent`, or the "event service buffer is full" error from `send`. -/
inductive SendError where
  | validation (e : EventCheckErr)
  | bufferFull
deriving DecidableEq

/-- Embeds `HashTagEventService.send` (lines 419-437): a non-blocking select on
the bounded channel `eventBuffer` (capacity `limit`).  The send case is ready
iff the buffer holds fewer than `limit` events; otherwise the default case
drops the event and returns the "buffer is full" error.  (The `recover()`
wrapper has no effect in this pure model.) -/
def send (limit : Nat) (eventBuffer : List HashTagEvent) (event : HashTagEvent) :
    List HashTagEvent × Option SendError :=
  if eventBuffer.length < limit then (eventBuffer ++ [event], none)
  else (eventBuffer, some .bufferFull)

/-- Embeds `HashTagEventService.SendEvent` (lines 411-417): validate via
`NewHashTagEvent`, then `send`. -/
def SendEvent (limit : Nat) (eventBuffer : List HashTagEvent) (hashTag : String)
    (keys : List String) (accessMode : String) (accessTime : Int) :
    List HashTagEvent × Option SendError :=
  match NewHashTagEvent hashTag keys accessMode accessTime with
  | .error e => (eventBuffer, some (.validation e))
  | .ok event => send limit eventBuffer event

/-! ## The aggregation map (src/base/hash_tag_event.go, lines 278-323)

`service.events` (a Go `map[string]HashTagEvent` guarded by a mutex) is
modelled as an association list keyed by hash tag. -/

/-- The in-memory aggregation map, keyed by hash tag. -/
abbrev EventsMap := List (String × HashTagEvent)

/-- Lookup in the aggregation map (Go map read). -/
def mapLookup : EventsMap → String → Option HashTagEvent
  | [], _ => none
  | (k, v) :: rest, h => if k = h then some v else mapLookup rest h

/-- Replace-or-insert in the aggregation map (Go map assignment). -/
def mapInsert : EventsMap → String → HashTagEvent → EventsMap
  | [], h, e => [(h, e)]
  | (k, v) :: rest, h, e =>
    if k = h then (k, e) :: rest else (k, v) :: mapInsert rest h e

/-- Embeds `HashTagEventService.aggregateEvent` (lines 278-292): if a prior
entry exists for the hash tag, keep mode `write` if the saved entry has it,
keep the later access time (`AccessTime.After` is strict), and add the incoming
keys to the saved key set; then store the merged event back in the map. -/
def aggregateEvent (events : EventsMap) (event : HashTagEvent) : EventsMap :=
  let merged :=
    match mapLookup events event.hashTag with
    | some savedEvent =>
      { event with
        accessMode :=
          if savedEvent.accessMode = "write" then savedEvent.accessMode
          else event.accessMode
        accessTime :=
          if savedEvent.accessTime > event.accessTime then savedEvent.accessTime
          else event.accessTime
        keys := setAddItems savedEvent.keys event.keys }
    | none => event
  mapInsert events event.hashTag merged

/-! ## Report and drain (src/base/hash_tag_event.go, lines 366-394, 449-491) -/

/-- A non-nil `*http.Response` as far as `_reportEvents` inspects it. -/
structure HTTPResp where
  status : Nat
  body : String
deriving DecidableEq

/-- Outcome of `_reportEvents`.  `panicNilDeref` marks the run in which the
deferred closure evaluates `resp.Body` while `resp` is a nil pointer, which in
Go panics during the return from the function. -/
inductive ReportResult where
  | ok
  | transportErr
  | statusErr (code : Nat)
  | panicNilDeref
deriving DecidableEq

/-- Embeds `HashTagEventService._reportEvents` (lines 366-394).  `post` is the
result of `service.client.Post`: the optional response and whether a transport
error occurred (per `net/http`, on a transport error the response is nil).
JSON marshalling of the event list cannot fail and is not modelled.  The defer
registered after `Post` runs `if resp.Body != nil { ... }` on every return
path, so a nil `resp` panics before any error can be returned. -/
def _reportEvents (events : List HashTagEvent) (post : Option HTTPResp × Bool) :
    ReportResult :=
  if events.isEmpty then .ok
  else
    match post with
    | (none, _) => .panicNilDeref
    | (some _, true) => .transportErr
    | (some resp, false) =>
      if resp.status ≠ 200 then .statusErr resp.status else .ok

/-- The drain error of `drainEvents`. -/
inductive DrainErr where
  | drainEventTimeout
deriving DecidableEq

/-- Embeds `closeAndEmptifyChannelWithTimer` (lines 475-491): close the
channel, then loop a select between receiving a buffered event (aggregating it
into the map) and the shared drain timer.  The race between the two select
cases is resolved by `budget`, the number of receives the timer permits before
firing: with `budget = 0` (for example `drainDuration = 0`) the timer case
fires first.  Returns the updated map, the budget left for the next drain (the
timer is shared), and whether the drain timed out. -/
def closeAndEmptifyChannelWithTimer :
    Nat → EventsMap → List HashTagEvent → EventsMap × Nat × Bool
  | 0, events, _ => (events, 0, true)
  | budget + 1, events, [] => (events, budget + 1, false)
  | budget + 1, events, e :: rest =>
    closeAndEmptifyChannelWithTimer budget (aggregateEvent events e) rest

/-- The batching loop at the end of `drainEvents` (lines 457-471): accumulate
residual events, posting a batch whenever it reaches `requestMaxEvent`, then
post the final partial batch (`_reportEvents` is a no-op on an empty list, so
only non-empty batches are listed). -/
def flushLoop (requestMaxEvent : Nat) (acc : List HashTagEvent) :
    List HashTagEvent → List (List HashTagEvent)
  | [] => if acc = [] then [] else [acc]
  | e :: rest =>
    let acc' := acc ++ [e]
    if acc'.length = requestMaxEvent then acc' :: flushLoop requestMaxEvent [] rest
    else flushLoop requestMaxEvent acc' rest

/-- Embeds `HashTagEventService.drainEvents` (lines 449-473): drain the
collected buffer, then the event buffer, under one shared timer; if either
drain times out, return the drain-timeout error immediately (the residual map
is NOT flushed on this path).  On success, flush the residual map in
`requestMaxEvent`-sized batches.  HTTP outcomes of the flush posts are
abstracted as successes (failures are the subject of `_reportEvents`); the
first component lists the batches handed to `_reportEvents`. -/
def drainEvents (budget requestMaxEvent : Nat) (events : EventsMap)
    (collectedEventBuffer eventBuffer : List HashTagEvent) :
    List (List HashTagEvent) × Option DrainErr :=
  let r1 := closeAndEmptifyChannelWithTimer budget events collectedEventBuffer
  if r1.2.2 then ([], some .drainEventTimeout)
  else
    let r2 := closeAndEmptifyChannelWithTimer r1.2.1 r1.1 eventBuffer
    if r2.2.2 then ([], some .drainEventTimeout)
    else (flushLoop requestMaxEvent [] (r2.1.map (fun p => p.2)), none)

/-! ## Shard mapper (src/base/db.go, lines 19-152)

Sharding keys are byte strings; a key is modelled as its list of byte values.
`crc32.ChecksumIEEE` is the standard reflected CRC-32 with polynomial
0xEDB88320, initial value 0xFFFFFFFF and final xor 0xFFFFFFFF, computed here
bit by bit over `Nat` (all intermediate values stay below 2^32). -/

/-- The reflected CRC-32 (IEEE) polynomial. -/
def crc32Poly : Nat := 0xEDB88320

/-- One bit step of the reflected CRC-32: shift right, xor the polynomial if
the dropped bit was set. -/
def crc32UpdateBit (c : Nat) : Nat :=
  if c % 2 = 1 then (c / 2) ^^^ crc32Poly else c / 2

/-- One byte step of the reflected CRC-32: xor in the byte, then 8 bit steps. -/
def crc32UpdateByte (c : Nat) (b : Nat) : Nat :=
  crc32UpdateBit^[8] (c ^^^ (b % 256))

/-- Embeds `crc32.ChecksumIEEE` over the bytes of the sharding key. -/
def crc32 (bytes : List Nat) : Nat :=
  0xFFFFFFFF ^^^ bytes.foldl crc32UpdateByte 0xFFFFFFFF

/-- Embeds `getTableIndex` (lines 150-152): `crc32(key) mod shardingCount`. -/
def getTableIndex (shardingKey : List Nat) (shardingCount : Nat) : Nat :=
  crc32 shardingKey % shardingCount

/-- Embeds the Go struct `dbClient`: a database handle (identified here by a
number) covering the contiguous shard range `[startIndex, endIndex]`. -/
structure DbClient where
  startIndex : Nat
  endIndex : Nat
  clientId : Nat
deriving DecidableEq

/-- Embeds the Go struct `DBCluster`. -/
structure DBCluster where
  clients : List DbClient
  shardingCount : Nat
deriving DecidableEq

/-- The error of `GetTableNameAndDBClientByModel` when no configured shard
range contains the computed index (Go: errors.New of "no db client found"). -/
inductive DBErr where
  | noDBClient
deriving DecidableEq

/-- Embeds `DBCluster.getClientByIndex` (lines 122-129): linear scan of the
shard list for the first range containing the index. -/
def getClientByIndex : List DbClient → Nat → Option Nat
  | [], _ => none
  | c :: rest, index =>
    if c.startIndex ≤ index ∧ index ≤ c.endIndex then some c.clientId
    else getClientByIndex rest index

/-- Embeds `DBCluster.GetTableNameAndDBClientByModel` (lines 131-140) for a
model with the given sharding key and table prefix: compute the shard index,
resolve the client, and format the physical table name `prefix_index`. -/
def GetTableNameAndDBClientByModel (cluster : DBCluster) (shardingKey : List Nat)
    (tablePfx : String) : Except DBErr (String × Nat) :=
  let tableIndex := getTableIndex shardingKey cluster.shardingCount
  match getClientByIndex cluster.clients tableIndex with
  | none => .error .noDBClient
  | some clientId => .ok (tablePfx ++ "_" ++ toString tableIndex, clientId)

/-! ## Single-key document upsert (src/unnamed/part_000, lines 119-191)

The per-hash-tag document table is modelled from the viewpoint of one hash
tag: `Option RoomRow` is the row for that tag (none = absent).  A call of
`_upsertRoomData` performs two round trips — the `Select` and then the guarded
`Update` (or the `Insert`) — so it is embedded as a function of the row state
observed at each round trip (`sSel` at select time, `sUpd` at write time);
`sSel = sUpd` is the interference-free case, and a concurrent writer between
the two round trips makes them differ.  The function also returns the list of
database operations it performed. -/

/-- Embeds the Go struct `roomDataModelV2` (timestamps in milliseconds). -/
structure RoomRow where
  hashTag : String
  value : List (String × RedisValue)
  createdAt : Int
  updatedAt : Int
  version : Nat
deriving DecidableEq

/-- The database operations `_upsertRoomData` can perform. -/
inductive DBOp where
  | select
  | insert
  | update
deriving DecidableEq

/-- Errors of the upsert path.  The first three are exactly the retryable
errors of `isRetryErrorForUpdateInTx`; `other` stands for any other error. -/
inductive UpsertErr where
  | noRowsUpdated
  | integrityViolation
  | txDone
  | other
deriving DecidableEq

/-- Embeds `isRetryErrorForUpdateInTx` (lines 135-147): retry exactly on
`errNoRowsUpdated`, an integrity violation, or `pg.ErrTxDone`. -/
def isRetryErrorForUpdateInTx : UpsertErr → Bool
  | .noRowsUpdated => true
  | .integrityViolation => true
  | .txDone => true
  | .other => false

/-- Embeds Postgres `jsonb_set(value, '{key}', v)` on a JSON object modelled
as an association list: replace the key if present, else append it. -/
def jsonbSet : List (String × RedisValue) → String → RedisValue →
    List (String × RedisValue)
  | [], key, v => [(key, v)]
  | (k, v') :: rest, key, v =>
    if k = key then (k, v) :: rest else (k, v') :: jsonbSet rest key v

/-- Embeds `_upsertRoomData` (lines 149-191).  A zero-sentinel value returns
immediately.  If the select finds no row, a fresh row with `version = 0` and
value map `{key: value}` is inserted (a row inserted concurrently makes the
primary-key insert fail with an integrity violation).  Otherwise the update
sets the key via `jsonb_set`, sets `version` to the selected version plus one,
and is guarded by `WHERE version = selected version`; zero rows affected
yields `errNoRowsUpdated`.  `now` is `time.Now()` in milliseconds. -/
def _upsertRoomData (sSel sUpd : Option RoomRow) (hashTag key : String)
    (value : RedisValue) (now : Int) :
    Option RoomRow × List DBOp × Except UpsertErr Unit :=
  if value.IsZero then (sUpd, [], .ok ())
  else
    match sSel with
    | none =>
      match sUpd with
      | some r => (some r, [.select, .insert], .error .integrityViolation)
      | none =>
        (some { hashTag := hashTag, value := [(key, value)]
                createdAt := now, updatedAt := now, version := 0 },
         [.select, .insert], .ok ())
    | some r =>
      match sUpd with
      | some r' =>
        if r'.version = r.version then
          (some { r' with value := jsonbSet r'.value key value
                          updatedAt := now, version := r.version + 1 },
           [.select, .update], .ok ())
        else (some r', [.select, .update], .error .noRowsUpdated)
      | none => (none, [.select, .update], .error .noRowsUpdated)

/-- The retry loop of `upsertRoomData` (lines 121-133), unrolled with an
attempt counter.  `env i` gives the row states the i-th attempt observes at
its select and at its write (abstracting concurrent writers); `rem` is the
number of loop iterations left out of `tryTimes`.  Mirrors the Go loop: a
non-retryable error returns at once, a retryable one is kept in `err` and the
loop continues, success breaks; when the iterations are exhausted the last
error is returned.  Also returns the number of attempts performed. -/
def upsertRoomDataGo (env : Nat → Option RoomRow × Option RoomRow)
    (hashTag key : String) (value : RedisValue) (now : Int) :
    Nat → Nat → Except UpsertErr Unit → Except UpsertErr Unit × Nat
  | i, 0, lastErr => (lastErr, i)
  | i, rem + 1, _ =>
    match (_upsertRoomData (env i).1 (env i).2 hashTag key value now).2.2 with
    | .ok _ => (.ok (), i + 1)
    | .error e =>
      if isRetryErrorForUpdateInTx e then
        upsertRoomDataGo env hashTag key value now (i + 1) rem (.error e)
      else (.error e, i + 1)

/-- Embeds `upsertRoomData` (lines 121-133): up to `tryTimes` attempts of
`_upsertRoomData`, retrying exactly on retryable errors (with `tryTimes = 0`
the loop body never runs and the nil error is returned, as in Go). -/
def upsertRoomData (env : Nat → Option RoomRow × Option RoomRow)
    (hashTag key : String) (value : RedisValue) (now : Int) (tryTimes : Nat) :
    Except UpsertErr Unit × Nat :=
  upsertRoomDataGo env hashTag key value now 0 tryTimes (.ok ())

/-! ## Bulk record upserts (src/unnamed/part_000, lines 265-346, 376-459)

Each table is modelled as a list of rows with a unique primary key; the
`INSERT ... ON CONFLICT (pk) DO UPDATE SET ts = EXCLUDED.ts WHERE
existing.ts < EXCLUDED.ts` statement  is applied row by row.  Grouping by
`(tableName, client)` in `getClusterModels...` routes every row of one key to
exactly one table, so the per-table state is the unit of the model. -/

/-- Embeds the Go struct `roomWrittenRecordModel` (keyed by full Redis key). -/
structure WrittenRow where
  key : String
  writtenAt : Int
  createdAt : Int
deriving DecidableEq

/-- Primary-key lookup in a written-record table. -/
def wrLookup : List WrittenRow → String → Option WrittenRow
  | [], _ => none
  | r :: rest, k => if r.key = k then some r else wrLookup rest k

/-- One row of the SQL in `bulkUpsertWrittenRecordModels` (lines 329-346):
insert on missing key; on conflict update `written_at` to the incoming value
only when the existing value is strictly older. -/
def wrUpsertOne : List WrittenRow → WrittenRow → List WrittenRow
  | [], m => [m]
  | r :: rest, m =>
    if r.key = m.key then
      (if r.writtenAt < m.writtenAt then { r with writtenAt := m.writtenAt }
       else r) :: rest
    else r :: wrUpsertOne rest m

/-- Embeds `bulkUpsertWrittenRecordModels` on one table: the batch insert is
the fold of the per-row upsert. -/
def bulkUpsertWrittenRecordModels (table : List WrittenRow)
    (models : List WrittenRow) : List WrittenRow :=
  models.foldl wrUpsertOne table

/-- Embeds the Go struct `roomAccessedRecordModelV2` (keyed by hash tag). -/
structure AccessedRow where
  hashTag : String
  accessedAt : Int
  createdAt : Int
deriving DecidableEq

/-- Primary-key lookup in an accessed-record table. -/
def arLookup : List AccessedRow → String → Option AccessedRow
  | [], _ => none
  | r :: rest, k => if r.hashTag = k then some r else arLookup rest k

/-- One row of the SQL in `bulkUpsertAccessedRecordModelsV2` (lines 442-459):
insert on missing hash tag; on conflict update `accessed_at` to the incoming
value only when the existing value is strictly older. -/
def arUpsertOne : List AccessedRow → AccessedRow → List AccessedRow
  | [], m => [m]
  | r :: rest, m =>
    if r.hashTag = m.hashTag then
      (if r.accessedAt < m.accessedAt then { r with accessedAt := m.accessedAt }
       else r) :: rest
    else r :: arUpsertOne rest m

/-- Embeds `bulkUpsertAccessedRecordModelsV2` on one table. -/
def bulkUpsertAccessedRecordModelsV2 (table : List AccessedRow)
    (models : List AccessedRow) : List AccessedRow :=
  models.foldl arUpsertOne table

/-! ## Command dispatcher (src/service/service_server.go, lines 140-231)

`connServeHandler` receives a batch of pipelined commands.  Each command is
abstracted by the outcomes of its three fallible steps (parse, pre-process
/ load, transaction lookup) and by the response value it produces when every
step succeeds.  The handler writes either the command result or a RESP error
to the connection, and increments metrics; the model returns the list of
connection writes and the list of metric increments, in order.  (Event
emission after the response is logged-only and does not write to the
connection; it is outside this model.) -/

/-- A value written back to the RESP connection. -/
inductive RespWrite where
  | errorMsg (e : String)
  | data (d : Nat)
deriving DecidableEq

/-- One pipelined command, abstracted by its step outcomes. -/
structure IncomingCommand where
  parseErr : Option String
  preErr : Option String
  txErr : Option String
  result : Nat
deriving DecidableEq

/-- Embeds the loop body of `connServeHandler` (lines 140-231).  On a parse,
pre-process or transaction-lookup error the handler writes the RESP error,
increments the matching error metric, and `return`s — leaving the remaining
commands of the batch unserved.  On success it writes the result and proceeds
to the next command. -/
def connServeHandler : List IncomingCommand → List RespWrite × List String
  | [] => ([], [])
  | c :: rest =>
    match c.parseErr with
    | some e => ([.errorMsg e], ["process.command", "error.parse_command"])
    | none =>
      match c.preErr with
      | some e => ([.errorMsg e], ["process.command", "error.pre_process"])
      | none =>
        match c.txErr with
        | some e => ([.errorMsg e], ["process.command", "error.get_transaction"])
        | none =>
          let r := connServeHandler rest
          (.data c.result :: r.1, "process.command" :: r.2)

/-! ## Helper lemmas -/

theorem mem_setAddItem (x y : String) (s : List String) :
    x ∈ setAddItem s y ↔ x ∈ s ∨ x = y := by
  unfold setAddItem
  split
  next hy =>
    constructor
    · exact Or.inl
    · rintro (h | rfl)
      · exact h
      · exact hy
  next hy => simp

theorem mem_setAddItems (x : String) (l : List String) : ∀ s : List String,
    x ∈ setAddItems s l ↔ x ∈ s ∨ x ∈ l := by
  induction l with
  | nil => intro s; simp [setAddItems]
  | cons y ys ih =>
    intro s
    have hstep : setAddItems s (y :: ys) = setAddItems (setAddItem s y) ys := rfl
    rw [hstep, ih, mem_setAddItem]
    simp [List.mem_cons]
    tauto

theorem setAddItems_ne_nil (l : List String) : ∀ s : List String,
    s ≠ [] → setAddItems s l ≠ [] := by
  induction l with
  | nil => intro s hs; simpa [setAddItems] using hs
  | cons y ys ih =>
    intro s hs
    have hstep : setAddItems s (y :: ys) = setAddItems (setAddItem s y) ys := rfl
    rw [hstep]
    apply ih
    unfold setAddItem
    split
    · exact hs
    · simp

theorem newStringSet_ne_nil (keys : List String) (h : keys ≠ []) :
    newStringSet keys ≠ [] := by
  cases keys with
  | nil => exact absurd rfl h
  | cons x xs =>
    have hstep : newStringSet (x :: xs) = setAddItems (setAddItem [] x) xs := rfl
    rw [hstep]
    apply setAddItems_ne_nil
    simp [setAddItem]

theorem mapLookup_mapInsert_self (m : EventsMap) (h : String) (e : HashTagEvent) :
    mapLookup (mapInsert m h e) h = some e := by
  induction m with
  | nil => simp [mapInsert, mapLookup]
  | cons p rest ih =>
    by_cases hk : p.1 = h
    · simp [mapInsert, mapLookup, hk]
    · simp [mapInsert, mapLookup, hk, ih]

theorem aggregateEvent_of_lookup_none (events : EventsMap) (e : HashTagEvent)
    (h : mapLookup events e.hashTag = none) :
    aggregateEvent events e = mapInsert events e.hashTag e := by
  unfold aggregateEvent
  rw [h]

theorem aggregateEvent_of_lookup_some (events : EventsMap) (e saved : HashTagEvent)
    (h : mapLookup events e.hashTag = some saved) :
    aggregateEvent events e
      = mapInsert events e.hashTag
          { e with
            accessMode := if saved.accessMode = "write" then saved.accessMode
                          else e.accessMode
            accessTime := if saved.accessTime > e.accessTime then saved.accessTime
                          else e.accessTime
            keys := setAddItems saved.keys e.keys } := by
  unfold aggregateEvent
  rw [h]

/-! ## C4: value expiry and TTL -/

/-- C4 counterexample: the claim asserts that any record with nonzero
`expire_ts ≤ t` is expired at `t`, but `RedisValue.IsExpired` also returns
`false` whenever `t` is Go's zero time: at `t = goZeroTimeMS` with
`expire_ts = goZeroTimeMS` (nonzero and `≤ t`), `IsExpired` is `false`. -/
theorem redis_value_is_expired_zero_time_cex :
    (RedisValue.mk ("string") ("") 0 goZeroTimeMS).expireTs ≠ 0 ∧
    (RedisValue.mk ("string") ("") 0 goZeroTimeMS).expireTs ≤ goZeroTimeMS ∧
    (RedisValue.mk ("string") ("") 0 goZeroTimeMS).IsExpired goZeroTimeMS = false := by
  refine ⟨by decide, by decide, ?_⟩
  simp [RedisValue.IsExpired, goZeroTimeMS]

/-- C4 (amended): for every value record `v` and time `t`: if `expire_ts = 0`
then `TTL = -1` and `v` is never expired; if `expire_ts` is nonzero and
`expire_ts ≤ t` (milliseconds) then `TTL = 0`, and `IsExpired = true` provided
`t` is not Go's zero time (at the zero time `IsExpired` returns `false`);
otherwise `TTL` is the positive remainder until expiry. -/
theorem redis_value_ttl_is_expired_spec (v : RedisValue) (t : Int) :
    (v.expireTs = 0 → v.TTL t = -1 ∧ v.IsExpired t = false) ∧
    (v.expireTs ≠ 0 → v.expireTs ≤ t →
      v.TTL t = 0 ∧ (t ≠ goZeroTimeMS → v.IsExpired t = true)) ∧
    (v.expireTs ≠ 0 → t < v.expireTs →
      v.TTL t = v.expireTs - t ∧ 0 < v.TTL t ∧ v.IsExpired t = false) := by
  refine ⟨?_, ?_, ?_⟩
  · intro h0
    simp [RedisValue.TTL, RedisValue.IsExpired, h0]
  · intro h0 hle
    refine ⟨?_, ?_⟩
    · simp only [RedisValue.TTL, if_neg h0]
      have : v.expireTs - t ≤ 0 := by omega
      by_cases hlt : v.expireTs - t < 0
      · simp [hlt]
      · have : v.expireTs - t = 0 := by omega
        simp [this]
    · intro hz
      simp [RedisValue.IsExpired, h0, hz, hle]
  · intro h0 hlt
    have hpos : ¬(v.expireTs - t < 0) := by omega
    refine ⟨?_, ?_, ?_⟩
    · simp [RedisValue.TTL, h0, hpos]
    · simp only [RedisValue.TTL, if_neg h0, if_neg hpos]
      omega
    · simp only [RedisValue.IsExpired, if_neg h0]
      split
      · rfl
      · simp only [decide_eq_false_iff_not, not_le]
        omega

/-- C4 witness: the amended theorem applied at a record expiring at 1000 ms,
read at 1000 ms (expired branch) . -/
theorem redis_value_ttl_is_expired_spec_witness :
    ((RedisValue.mk ("string") ("v") 0 1000).expireTs ≠ 0 ∧
      (RedisValue.mk ("string") ("v") 0 1000).expireTs ≤ 1000 ∧
      (1000 : Int) ≠ goZeroTimeMS) ∧
    (RedisValue.mk ("string") ("v") 0 1000).TTL 1000 = 0 ∧
    (RedisValue.mk ("string") ("v") 0 1000).IsExpired 1000 = true := by
  refine ⟨⟨by decide, by decide, by decide⟩, ?_, ?_⟩
  · exact ((redis_value_ttl_is_expired_spec (RedisValue.mk ("string") ("v") 0 1000)
      1000).2.1 (by decide) (by decide)).1
  · exact ((redis_value_ttl_is_expired_spec (RedisValue.mk ("string") ("v") 0 1000)
      1000).2.1 (by decide) (by decide)).2 (by decide)

/-! ## C10: zero-sentinel upsert is a no-op -/

/-- C10: upserting a zero-sentinel value record (empty kind tag) returns
success without performing any database operation, leaving the stored document
unchanged; the retry loop performs exactly one attempt and succeeds. -/
theorem upsert_zero_value_noop (hashTag key : String) (value : RedisValue)
    (now : Int) (hz : value.IsZero = true) :
    (∀ s : Option RoomRow,
      _upsertRoomData s s hashTag key value now = (s, [], Except.ok ())) ∧
    (∀ (env : Nat → Option RoomRow × Option RoomRow) (tryTimes : Nat),
      1 ≤ tryTimes →
      upsertRoomData env hashTag key value now tryTimes = (Except.ok (), 1)) := by
  constructor
  · intro s
    simp [_upsertRoomData, hz]
  · intro env tryTimes ht
    match tryTimes, ht with
    | n + 1, _ =>
      simp [upsertRoomData, upsertRoomDataGo, _upsertRoomData, hz]

/-- C10 witness: the zero sentinel at a concrete populated row. -/
theorem upsert_zero_value_noop_witness :
    (RedisValue.mk ("") ("") 0 0).IsZero = true ∧
    _upsertRoomData (some (RoomRow.mk ("h") [] 0 0 3)) (some (RoomRow.mk ("h") [] 0 0 3))
        ("h") ("k") (RedisValue.mk ("") ("") 0 0) 5
      = (some (RoomRow.mk ("h") [] 0 0 3), [], Except.ok ()) := by
  refine ⟨by decide, ?_⟩
  exact (upsert_zero_value_noop ("h") ("k") (RedisValue.mk ("") ("") 0 0) 5
    (by decide)).1 (some (RoomRow.mk ("h") [] 0 0 3))

/-! ## C7: transport error in the event report -/

/-- C7 (code bug): on a transport error `client.Post` returns a nil response
and a non-nil error; the deferred closure in `_reportEvents` then evaluates
`resp.Body` on the nil response and panics during the return, so the function
never returns the transport error (the spec requires the error to be returned
and the batch to be logged and dropped).  Evaluated at a concrete non-empty
batch with a transport error. -/
theorem report_events_transport_error_panics :
    _reportEvents [HashTagEvent.mk ("t") [("k")] ("read") 1] (none, true)
        = ReportResult.panicNilDeref ∧
    ReportResult.panicNilDeref ≠ ReportResult.transportErr := by
  exact ⟨rfl, by decide⟩

/-! ## C8: drain timeout and the residual flush -/

/-- C8 counterexample: with `drainDuration = 0` (the timer fires before any
receive, budget 0), a non-empty collected buffer and a non-empty residual map,
`drainEvents` returns the drain-timeout error and flushes NO batch at all —
the claim asserts the residual events are still flushed in this situation. -/
theorem drain_events_timeout_no_flush_cex :
    drainEvents 0 10 [(("t"), HashTagEvent.mk ("t") [("k0")] ("read") 1)]
        [HashTagEvent.mk ("u") [("k1")] ("read") 2] []
      = ([], some DrainErr.drainEventTimeout) := by
  rfl

/-- C8 (amended): when draining a buffer during shutdown times out (for
example with `drainDuration = 0` and a non-empty channel), `drainEvents`
returns the drain-timeout error and the residual events aggregated in the
in-memory map are NOT flushed: no HTTP batch is posted on any error path of
`drainEvents` (the best-effort `requestMaxEvent`-sized flush runs only when
both channel drains complete within the timer). -/
theorem drain_events_error_implies_no_flush (budget requestMaxEvent : Nat)
    (events : EventsMap) (collected eventBuf : List HashTagEvent) (err : DrainErr)
    (h : (drainEvents budget requestMaxEvent events collected eventBuf).2 = some err) :
    (drainEvents budget requestMaxEvent events collected eventBuf).1 = [] := by
  simp only [drainEvents] at h ⊢
  split at h
  next h1 => simp [h1]
  next h1 =>
    split at h
    next h2 => simp [h1, h2]
    next h2 => simp at h

/-- C8 witness: the amended theorem applied at budget 0 with a non-empty
channel. -/
theorem drain_events_error_implies_no_flush_witness :
    (drainEvents 0 10 [] [HashTagEvent.mk ("u") [("k1")] ("read") 2] []).2
        = some DrainErr.drainEventTimeout ∧
    (drainEvents 0 10 [] [HashTagEvent.mk ("u") [("k1")] ("read") 2] []).1 = [] := by
  refine ⟨rfl, ?_⟩
  exact drain_events_error_implies_no_flush 0 10 []
    [HashTagEvent.mk ("u") [("k1")] ("read") 2] [] DrainErr.drainEventTimeout rfl

/-! ## C9: error handling in the pipelined command loop -/

/-- C9 counterexample: a batch of two pipelined commands in which the first
fails to parse.  The handler writes the RESP error and returns: the second
command is never processed (no second write, no second `process.command`
metric) — the claim asserts the dispatcher continues with the next command. -/
theorem conn_serve_handler_stops_batch_cex :
    connServeHandler
        [IncomingCommand.mk (some ("ERR unknown command")) none none 0,
         IncomingCommand.mk none none none 7]
      = ([RespWrite.errorMsg ("ERR unknown command")],
         [("process.command"), ("error.parse_command")]) := by
  rfl

/-- C9 (amended): an error in any step of handling one command (parse,
pre-process/load, transaction lookup) writes a RESP error to the connection
and increments the matching metric, and the handler then RETURNS, so the
subsequent commands of the batch are not processed; only when every step
succeeds does the handler write the result and continue with the next
command. -/
theorem conn_serve_handler_error_stops_batch (c : IncomingCommand)
    (rest : List IncomingCommand) :
    (∀ e, c.parseErr = some e →
      connServeHandler (c :: rest)
        = ([.errorMsg e], [("process.command"), ("error.parse_command")])) ∧
    (∀ e, c.parseErr = none → c.preErr = some e →
      connServeHandler (c :: rest)
        = ([.errorMsg e], [("process.command"), ("error.pre_process")])) ∧
    (∀ e, c.parseErr = none → c.preErr = none → c.txErr = some e →
      connServeHandler (c :: rest)
        = ([.errorMsg e], [("process.command"), ("error.get_transaction")])) ∧
    (c.parseErr = none → c.preErr = none → c.txErr = none →
      connServeHandler (c :: rest)
        = (.data c.result :: (connServeHandler rest).1,
           ("process.command") :: (connServeHandler rest).2)) := by
  refine ⟨?_, ?_, ?_, ?_⟩
  · intro e he
    simp [connServeHandler, he]
  · intro e h1 he
    simp [connServeHandler, h1, he]
  · intro e h1 h2 he
    simp [connServeHandler, h1, h2, he]
  · intro h1 h2 h3
    simp [connServeHandler, h1, h2, h3]

/-- C9 witness: the amended theorem applied at a concrete batch whose first
command fails pre-processing. -/
theorem conn_serve_handler_error_stops_batch_witness :
    connServeHandler
        [IncomingCommand.mk none (some ("ERR load data error, x")) none 0,
         IncomingCommand.mk none none none 5]
      = ([RespWrite.errorMsg ("ERR load data error, x")],
         [("process.command"), ("error.pre_process")]) := by
  exact (conn_serve_handler_error_stops_batch
    (IncomingCommand.mk none (some ("ERR load data error, x")) none 0)
    [IncomingCommand.mk none none none 5]).2.1 ("ERR load data error, x") rfl rfl

/-! ## C5: non-blocking event ingress -/

/-- C5: for a valid event, `SendEvent` at a full buffer drops the event and
returns the buffer-full error with the buffer unchanged (the non-blocking
select takes the default case); at a buffer with free space it enqueues the
event and returns no error. -/
theorem send_event_buffer_spec (limit : Nat) (buf : List HashTagEvent)
    (hashTag : String) (keys : List String) (accessMode : String)
    (accessTime : Int) (h1 : hashTag ≠ "") (h2 : accessMode ≠ "")
    (h3 : accessTime ≠ goZeroTimeMS) (h4 : keys ≠ []) :
    (limit ≤ buf.length →
      SendEvent limit buf hashTag keys accessMode accessTime
        = (buf, some SendError.bufferFull)) ∧
    (buf.length < limit →
      SendEvent limit buf hashTag keys accessMode accessTime
        = (buf ++ [⟨hashTag, newStringSet keys, accessMode, accessTime⟩], none)) := by
  have hcheck :
      NewHashTagEvent hashTag keys accessMode accessTime
        = .ok ⟨hashTag, newStringSet keys, accessMode, accessTime⟩ := by
    simp [NewHashTagEvent, HashTagEvent.Check, h1, h2, h3, newStringSet_ne_nil keys h4]
  constructor
  · intro hfull
    have hnl : ¬ buf.length < limit := by omega
    simp [SendEvent, hcheck, send, hnl]
  · intro hfree
    simp [SendEvent, hcheck, send, hfree]

/-- C5 witness: both branches at concrete inputs: a buffer at capacity 1
rejects the event unchanged; an empty buffer with capacity 1 accepts it. -/
theorem send_event_buffer_spec_witness :
    SendEvent 1 [HashTagEvent.mk ("a") [("x")] ("read") 1] ("t") [("k")] ("read") 2
        = ([HashTagEvent.mk ("a") [("x")] ("read") 1], some SendError.bufferFull) ∧
    SendEvent 1 [] ("t") [("k")] ("read") 2
        = ([⟨("t"), newStringSet [("k")], ("read"), 2⟩], none) := by
  constructor
  · exact (send_event_buffer_spec 1 [HashTagEvent.mk ("a") [("x")] ("read") 1]
      ("t") [("k")] ("read") 2 (by decide) (by decide) (by decide) (by decide)).1
      (by decide)
  · exact (send_event_buffer_spec 1 [] ("t") [("k")] ("read") 2
      (by decide) (by decide) (by decide) (by decide)).2 (by decide)

/-! ## C1: aggregation merge -/

/-- C1: merging two events with the same hash tag into the aggregation map in
either order yields an entry whose key set is the union of the two key sets,
whose access time is the later of the two access times, and whose access mode
is `write` iff at least one of the two events has mode `write`. -/
theorem aggregate_event_merge_commutes (m : EventsMap) (e1 e2 : HashTagEvent)
    (hTag : e1.hashTag = e2.hashTag) (hm : mapLookup m e1.hashTag = none) :
    ∃ r1 r2 : HashTagEvent,
      mapLookup (aggregateEvent (aggregateEvent m e1) e2) e1.hashTag = some r1 ∧
      mapLookup (aggregateEvent (aggregateEvent m e2) e1) e1.hashTag = some r2 ∧
      (∀ k, k ∈ r1.keys ↔ k ∈ e1.keys ∨ k ∈ e2.keys) ∧
      (∀ k, k ∈ r2.keys ↔ k ∈ e1.keys ∨ k ∈ e2.keys) ∧
      r1.accessTime = max e1.accessTime e2.accessTime ∧
      r2.accessTime = max e1.accessTime e2.accessTime ∧
      (r1.accessMode = "write" ↔ (e1.accessMode = "write" ∨ e2.accessMode = "write")) ∧
      (r2.accessMode = "write" ↔ (e1.accessMode = "write" ∨ e2.accessMode = "write")) := by
  have hm' : mapLookup m e2.hashTag = none := hTag ▸ hm
  have hA1 : aggregateEvent m e1 = mapInsert m e1.hashTag e1 :=
    aggregateEvent_of_lookup_none m e1 hm
  have hA2 : aggregateEvent m e2 = mapInsert m e2.hashTag e2 :=
    aggregateEvent_of_lookup_none m e2 hm'
  have hlook1 : mapLookup (aggregateEvent m e1) e2.hashTag = some e1 := by
    rw [hA1, ← hTag]
    exact mapLookup_mapInsert_self m e1.hashTag e1
  have hlook2 : mapLookup (aggregateEvent m e2) e1.hashTag = some e2 := by
    rw [hA2, ← hTag]
    exact mapLookup_mapInsert_self m e1.hashTag e2
  have hA12 := aggregateEvent_of_lookup_some (aggregateEvent m e1) e2 e1 hlook1
  have hA21 := aggregateEvent_of_lookup_some (aggregateEvent m e2) e1 e2
    (by rw [hTag]; exact hTag ▸ hlook2)
  refine ⟨{ e2 with
              accessMode := if e1.accessMode = "write" then e1.accessMode
                            else e2.accessMode
              accessTime := if e1.accessTime > e2.accessTime then e1.accessTime
                            else e2.accessTime
              keys := setAddItems e1.keys e2.keys },
          { e1 with
              accessMode := if e2.accessMode = "write" then e2.accessMode
                            else e1.accessMode
              accessTime := if e2.accessTime > e1.accessTime then e2.accessTime
                            else e1.accessTime
              keys := setAddItems e2.keys e1.keys },
          ?_, ?_, ?_, ?_, ?_, ?_, ?_, ?_⟩
  · rw [hA12, hTag]
    exact mapLookup_mapInsert_self _ e2.hashTag _
  · rw [hA21]
    exact mapLookup_mapInsert_self _ e1.hashTag _
  · intro k
    exact mem_setAddItems k e2.keys e1.keys
  · intro k
    rw [mem_setAddItems k e1.keys e2.keys]
    tauto
  · show (if e1.accessTime > e2.accessTime then e1.accessTime else e2.accessTime)
      = max e1.accessTime e2.accessTime
    rcases le_or_lt e1.accessTime e2.accessTime with h | h
    · rw [if_neg (not_lt.mpr h), max_eq_right h]
    · rw [if_pos h, max_eq_left (le_of_lt h)]
  · show (if e2.accessTime > e1.accessTime then e2.accessTime else e1.accessTime)
      = max e1.accessTime e2.accessTime
    rcases le_or_lt e2.accessTime e1.accessTime with h | h
    · rw [if_neg (not_lt.mpr h), max_eq_left h]
    · rw [if_pos h, max_eq_right (le_of_lt h)]
  · show (if e1.accessMode = "write" then e1.accessMode else e2.accessMode) = "write"
      ↔ (e1.accessMode = "write" ∨ e2.accessMode = "write")
    by_cases h : e1.accessMode = "write"
    · simp [h]
    · simp [h]
  · show (if e2.accessMode = "write" then e2.accessMode else e1.accessMode) = "write"
      ↔ (e1.accessMode = "write" ∨ e2.accessMode = "write")
    by_cases h : e2.accessMode = "write"
    · simp [h]
    · simp [h]
      try tauto

/-- C1 witness: two concrete events on hash tag `t` merged from the empty
map. -/
theorem aggregate_event_merge_commutes_witness :
    ∃ r1 r2 : HashTagEvent,
      mapLookup
          (aggregateEvent
            (aggregateEvent [] (HashTagEvent.mk ("t") [("k1")] ("read") 5))
            (HashTagEvent.mk ("t") [("k2")] ("write") 3))
          (HashTagEvent.mk ("t") [("k1")] ("read") 5).hashTag = some r1 ∧
      mapLookup
          (aggregateEvent
            (aggregateEvent [] (HashTagEvent.mk ("t") [("k2")] ("write") 3))
            (HashTagEvent.mk ("t") [("k1")] ("read") 5))
          (HashTagEvent.mk ("t") [("k1")] ("read") 5).hashTag = some r2 ∧
      (∀ k, k ∈ r1.keys ↔
        k ∈ (HashTagEvent.mk ("t") [("k1")] ("read") 5).keys ∨
        k ∈ (HashTagEvent.mk ("t") [("k2")] ("write") 3).keys) ∧
      (∀ k, k ∈ r2.keys ↔
        k ∈ (HashTagEvent.mk ("t") [("k1")] ("read") 5).keys ∨
        k ∈ (HashTagEvent.mk ("t") [("k2")] ("write") 3).keys) ∧
      r1.accessTime = max (5 : Int) 3 ∧
      r2.accessTime = max (5 : Int) 3 ∧
      (r1.accessMode = "write" ↔
        ((HashTagEvent.mk ("t") [("k1")] ("read") 5).accessMode = "write" ∨
         (HashTagEvent.mk ("t") [("k2")] ("write") 3).accessMode = "write")) ∧
      (r2.accessMode = "write" ↔
        ((HashTagEvent.mk ("t") [("k1")] ("read") 5).accessMode = "write" ∨
         (HashTagEvent.mk ("t") [("k2")] ("write") 3).accessMode = "write")) := by
  exact aggregate_event_merge_commutes [] (HashTagEvent.mk ("t") [("k1")] ("read") 5)
    (HashTagEvent.mk ("t") [("k2")] ("write") 3) rfl rfl

/-! ## C6: shard resolution -/

theorem getClientByIndex_eq_none_iff (clients : List DbClient) (i : Nat) :
    getClientByIndex clients i = none
      ↔ ∀ c ∈ clients, ¬(c.startIndex ≤ i ∧ i ≤ c.endIndex) := by
  induction clients with
  | nil => simp [getClientByIndex]
  | cons c rest ih =>
    by_cases hc : c.startIndex ≤ i ∧ i ≤ c.endIndex
    · constructor
      · intro h
        rw [show getClientByIndex (c :: rest) i = some c.clientId from by
          simp [getClientByIndex, hc]] at h
        cases h
      · intro hall
        exact absurd hc (hall c (List.mem_cons_self c rest))
    · have hstep : getClientByIndex (c :: rest) i = getClientByIndex rest i := by
        simp [getClientByIndex, hc]
      rw [hstep, ih]
      constructor
      · intro h c' hmem
        rcases List.mem_cons.mp hmem with rfl | hmem'
        · exact hc
        · exact h c' hmem'
      · intro h c' hmem'
        exact h c' (List.mem_cons_of_mem c hmem')

/-- C6: for every sharding key and cluster with `shardingCount > 0`, the shard
index is `CRC32-IEEE(key) mod shardingCount` and lies in `[0, shardingCount)`;
on resolution the physical table name is the model's table prefix followed by
an underscore and the index; and when no configured shard range contains the
index, resolution fails with the no-DB-client error. -/
theorem shard_resolution_spec (cluster : DBCluster) (shardingKey : List Nat)
    (tablePfx : String) (hN : 0 < cluster.shardingCount) :
    getTableIndex shardingKey cluster.shardingCount
        = crc32 shardingKey % cluster.shardingCount ∧
    getTableIndex shardingKey cluster.shardingCount < cluster.shardingCount ∧
    ((∀ c ∈ cluster.clients,
        ¬(c.startIndex ≤ getTableIndex shardingKey cluster.shardingCount ∧
          getTableIndex shardingKey cluster.shardingCount ≤ c.endIndex)) →
      GetTableNameAndDBClientByModel cluster shardingKey tablePfx
        = .error DBErr.noDBClient) ∧
    (∀ clientId,
      getClientByIndex cluster.clients
          (getTableIndex shardingKey cluster.shardingCount) = some clientId →
      GetTableNameAndDBClientByModel cluster shardingKey tablePfx
        = .ok (tablePfx ++ "_"
                 ++ toString (getTableIndex shardingKey cluster.shardingCount),
               clientId)) := by
  refine ⟨rfl, Nat.mod_lt _ hN, ?_, ?_⟩
  · intro hnone
    have h := (getClientByIndex_eq_none_iff cluster.clients
      (getTableIndex shardingKey cluster.shardingCount)).mpr hnone
    simp [GetTableNameAndDBClientByModel, h]
  · intro clientId hsome
    simp [GetTableNameAndDBClientByModel, hsome]

/-- C6 witness: the key is the single byte of the letter a
(`CRC32 = 0xE8B7BE43`, index `0xE8B7BE43 mod 3 = 0`), resolved against a
cluster with one shard range `[0, 2]` on client 42, and against a cluster
whose only range `[1, 2]` misses the index. -/
theorem shard_resolution_spec_witness :
    getTableIndex [97] 3 < 3 ∧
    GetTableNameAndDBClientByModel (DBCluster.mk [DbClient.mk 0 2 42] 3) [97]
        ("room_data_v2")
      = .ok (("room_data_v2") ++ "_" ++ toString (getTableIndex [97] 3), 42) ∧
    GetTableNameAndDBClientByModel (DBCluster.mk [DbClient.mk 1 2 42] 3) [97]
        ("room_data_v2")
      = .error DBErr.noDBClient := by
  refine ⟨?_, ?_, ?_⟩
  · exact (shard_resolution_spec (DBCluster.mk [DbClient.mk 0 2 42] 3) [97]
      ("room_data_v2") (by decide)).2.1
  · exact (shard_resolution_spec (DBCluster.mk [DbClient.mk 0 2 42] 3) [97]
      ("room_data_v2") (by decide)).2.2.2 42 (by decide)
  · exact (shard_resolution_spec (DBCluster.mk [DbClient.mk 1 2 42] 3) [97]
      ("room_data_v2") (by decide)).2.2.1 (by decide)

/-! ## C2: single-key document upsert -/

theorem upsertRoomDataGo_attempts_le (env : Nat → Option RoomRow × Option RoomRow)
    (hashTag key : String) (value : RedisValue) (now : Int) :
    ∀ (rem i : Nat) (lastErr : Except UpsertErr Unit),
      (upsertRoomDataGo env hashTag key value now i rem lastErr).2 ≤ i + rem := by
  intro rem
  induction rem with
  | zero =>
    intro i lastErr
    simp [upsertRoomDataGo]
  | succ r ih =>
    intro i lastErr
    rw [upsertRoomDataGo]
    split
    · show i + 1 ≤ i + (r + 1)
      omega
    · split
      · exact le_trans (ih (i + 1) _) (by omega)
      · show i + 1 ≤ i + (r + 1)
        omega

/-- C2: for a non-sentinel value record: an absent row is inserted with
`version = 0` and value map `{key: record}`; a present row has the key set
inside the JSON value map with `version` incremented by exactly one under the
`WHERE version = prior_version` guard; a concurrent version change makes the
guarded update affect zero rows, which yields the retryable `errNoRowsUpdated`
conflict; the loop retries a conflicted attempt (here: a conflict on the first
attempt, success on the second) and never performs more than `tryTimes`
attempts. -/
theorem upsert_room_data_single_key_spec (hashTag key : String)
    (value : RedisValue) (now : Int) (hz : value.IsZero = false) :
    (_upsertRoomData none none hashTag key value now
      = (some (RoomRow.mk hashTag [(key, value)] now now 0),
         [DBOp.select, DBOp.insert], Except.ok ())) ∧
    (∀ r : RoomRow,
      _upsertRoomData (some r) (some r) hashTag key value now
        = (some { r with value := jsonbSet r.value key value,
                         updatedAt := now, version := r.version + 1 },
           [DBOp.select, DBOp.update], Except.ok ())) ∧
    (∀ r r' : RoomRow, r'.version ≠ r.version →
      _upsertRoomData (some r) (some r') hashTag key value now
        = (some r', [DBOp.select, DBOp.update],
           Except.error UpsertErr.noRowsUpdated)) ∧
    isRetryErrorForUpdateInTx UpsertErr.noRowsUpdated = true ∧
    (∀ (env : Nat → Option RoomRow × Option RoomRow) (tryTimes : Nat),
      (upsertRoomData env hashTag key value now tryTimes).2 ≤ tryTimes) ∧
    (∀ (r r' : RoomRow) (tryTimes : Nat), 2 ≤ tryTimes → r'.version ≠ r.version →
      upsertRoomData (fun i => if i = 0 then (some r, some r') else (some r, some r))
          hashTag key value now tryTimes
        = (Except.ok (), 2)) := by
  refine ⟨?_, ?_, ?_, rfl, ?_, ?_⟩
  · simp [_upsertRoomData, hz]
  · intro r
    simp [_upsertRoomData, hz]
  · intro r r' hv
    simp [_upsertRoomData, hz, hv]
  · intro env tryTimes
    have h := upsertRoomDataGo_attempts_le env hashTag key value now tryTimes 0 (.ok ())
    simpa [upsertRoomData] using h
  · intro r r' tryTimes ht hv
    match tryTimes, ht with
    | n + 2, _ =>
      have hfirst :
          (_upsertRoomData (some r) (some r') hashTag key value now).2.2
            = Except.error UpsertErr.noRowsUpdated := by
        simp [_upsertRoomData, hz, hv]
      have hsecond :
          (_upsertRoomData (some r) (some r) hashTag key value now).2.2
            = Except.ok () := by
        simp [_upsertRoomData, hz]
      rw [upsertRoomData, upsertRoomDataGo]
      simp only [if_pos rfl, hfirst, isRetryErrorForUpdateInTx, if_true]
      rw [upsertRoomDataGo]
      simp only [show (1 : Nat) = 0 ↔ False by simp, if_false, hsecond]

/-- C2 witness: the insert branch, the guarded-update branch, the conflict
branch and the retry loop at concrete rows. -/
theorem upsert_room_data_single_key_spec_witness :
    (_upsertRoomData none none ("h") ("k") (RedisValue.mk ("string") ("x") 0 0) 7
      = (some (RoomRow.mk ("h") [(("k"), RedisValue.mk ("string") ("x") 0 0)] 7 7 0),
         [DBOp.select, DBOp.insert], Except.ok ())) ∧
    (upsertRoomData
        (fun i => if i = 0
          then (some (RoomRow.mk ("h") [] 0 0 0), some (RoomRow.mk ("h") [] 0 0 5))
          else (some (RoomRow.mk ("h") [] 0 0 0), some (RoomRow.mk ("h") [] 0 0 0)))
        ("h") ("k") (RedisValue.mk ("string") ("x") 0 0) 7 3
      = (Except.ok (), 2)) := by
  constructor
  · exact (upsert_room_data_single_key_spec ("h") ("k")
      (RedisValue.mk ("string") ("x") 0 0) 7 (by decide)).1
  · exact (upsert_room_data_single_key_spec ("h") ("k")
      (RedisValue.mk ("string") ("x") 0 0) 7 (by decide)).2.2.2.2.2
      (RoomRow.mk ("h") [] 0 0 0) (RoomRow.mk ("h") [] 0 0 5) 3
      (by decide) (by decide)

/-! ## C3: written-record lemmas -/

theorem wrUpsertOne_of_absent (m : WrittenRow) : ∀ t : List WrittenRow,
    wrLookup t m.key = none → wrUpsertOne t m = t ++ [m] := by
  intro t
  induction t with
  | nil => intro _; rfl
  | cons a rest ih =>
    intro h
    by_cases hk : a.key = m.key
    · simp [wrLookup, hk] at h
    · simp only [wrLookup, if_neg hk] at h
      simp [wrUpsertOne, hk, ih h]

theorem wrUpsertOne_of_present (m : WrittenRow) : ∀ (t : List WrittenRow)
    (r : WrittenRow), wrLookup t m.key = some r →
    wrLookup (wrUpsertOne t m) m.key
      = some { r with writtenAt := max r.writtenAt m.writtenAt } := by
  intro t
  induction t with
  | nil => intro r h; simp [wrLookup] at h
  | cons a rest ih =>
    intro r h
    obtain ⟨ak, aw, ac⟩ := a
    by_cases hk : ak = m.key
    · simp only [wrLookup, if_pos hk, Option.some.injEq] at h
      subst h
      by_cases hlt : aw < m.writtenAt
      · simp [wrUpsertOne, wrLookup, hk, hlt, max_eq_right (le_of_lt hlt)]
      · simp [wrUpsertOne, wrLookup, hk, hlt, max_eq_left (not_lt.mp hlt)]
    · simp only [wrLookup, if_neg hk] at h
      simp [wrUpsertOne, wrLookup, hk, ih r h]

theorem wrUpsertOne_stale_id (m : WrittenRow) : ∀ (t : List WrittenRow)
    (r : WrittenRow), wrLookup t m.key = some r → m.writtenAt ≤ r.writtenAt →
    wrUpsertOne t m = t := by
  intro t
  induction t with
  | nil => intro r h _; simp [wrLookup] at h
  | cons a rest ih =>
    intro r h hle
    by_cases hk : a.key = m.key
    · simp only [wrLookup, if_pos hk, Option.some.injEq] at h
      subst h
      simp [wrUpsertOne, hk, not_lt.mpr hle]
    · simp only [wrLookup, if_neg hk] at h
      simp [wrUpsertOne, hk, ih r h hle]

theorem wrLookup_wrUpsertOne_other (m : WrittenRow) (k : String) (hk : k ≠ m.key) :
    ∀ t : List WrittenRow, wrLookup (wrUpsertOne t m) k = wrLookup t k := by
  have hmk : ¬ m.key = k := fun h => hk h.symm
  intro t
  induction t with
  | nil =>
    simp [wrUpsertOne, wrLookup, hmk]
  | cons a rest ih =>
    by_cases hak : a.key = m.key
    · have hakk : ¬ a.key = k := fun h => hk (h.symm.trans hak)
      by_cases hlt : a.writtenAt < m.writtenAt
      · simp [wrUpsertOne, wrLookup, hak, hlt, hakk, hmk]
      · simp [wrUpsertOne, wrLookup, hak, hlt, hakk, hmk]
    · by_cases hax : a.key = k
      · simp [wrUpsertOne, wrLookup, hak, hax, hk]
      · simp [wrUpsertOne, wrLookup, hak, hax, ih]

theorem wrLookup_append_none (m : WrittenRow) : ∀ t : List WrittenRow,
    wrLookup t m.key = none → wrLookup (t ++ [m]) m.key = some m := by
  intro t
  induction t with
  | nil => intro _; simp [wrLookup]
  | cons a rest ih =>
    intro h
    by_cases hk : a.key = m.key
    · simp [wrLookup, hk] at h
    · simp only [wrLookup, if_neg hk] at h
      simp only [List.cons_append, wrLookup, if_neg hk]
      exact ih h

theorem wrUpsertOne_grows (m : WrittenRow) (t : List WrittenRow) (k : String)
    (r : WrittenRow) (h : wrLookup t k = some r) :
    ∃ r', wrLookup (wrUpsertOne t m) k = some r' ∧ r.writtenAt ≤ r'.writtenAt := by
  by_cases hk : k = m.key
  · subst hk
    exact ⟨{ r with writtenAt := max r.writtenAt m.writtenAt },
      wrUpsertOne_of_present m t r h, le_max_left _ _⟩
  · exact ⟨r, by rw [wrLookup_wrUpsertOne_other m k hk t]; exact h, le_refl _⟩

theorem wrUpsertOne_incoming_le (m : WrittenRow) (t : List WrittenRow) :
    ∃ r', wrLookup (wrUpsertOne t m) m.key = some r' ∧ m.writtenAt ≤ r'.writtenAt := by
  cases hl : wrLookup t m.key with
  | none =>
    refine ⟨m, ?_, le_refl _⟩
    rw [wrUpsertOne_of_absent m t hl]
    exact wrLookup_append_none m t hl
  | some r =>
    exact ⟨{ r with writtenAt := max r.writtenAt m.writtenAt },
      wrUpsertOne_of_present m t r hl, le_max_right _ _⟩

theorem bulkUpsertWritten_grows (ms : List WrittenRow) : ∀ (t : List WrittenRow)
    (k : String) (r : WrittenRow), wrLookup t k = some r →
    ∃ r', wrLookup (bulkUpsertWrittenRecordModels t ms) k = some r' ∧
      r.writtenAt ≤ r'.writtenAt := by
  induction ms with
  | nil => intro t k r h; exact ⟨r, h, le_refl _⟩
  | cons a as ih =>
    intro t k r h
    obtain ⟨r1, h1, hle1⟩ := wrUpsertOne_grows a t k r h
    obtain ⟨r', h', hle'⟩ := ih (wrUpsertOne t a) k r1 h1
    exact ⟨r', h', le_trans hle1 hle'⟩

theorem bulkUpsertWritten_mem_le (ms : List WrittenRow) : ∀ (t : List WrittenRow)
    (m : WrittenRow), m ∈ ms →
    ∃ r', wrLookup (bulkUpsertWrittenRecordModels t ms) m.key = some r' ∧
      m.writtenAt ≤ r'.writtenAt := by
  induction ms with
  | nil => intro t m hm; cases hm
  | cons a as ih =>
    intro t m hm
    rcases List.mem_cons.mp hm with rfl | hm'
    · obtain ⟨r1, h1, hle1⟩ := wrUpsertOne_incoming_le m t
      obtain ⟨r', h', hle'⟩ := bulkUpsertWritten_grows as (wrUpsertOne t m) m.key r1 h1
      exact ⟨r', h', le_trans hle1 hle'⟩
    · exact ih (wrUpsertOne t a) m hm'

theorem bulkUpsertWritten_id_of_stale (ms : List WrittenRow) : ∀ T : List WrittenRow,
    (∀ m ∈ ms, ∃ r, wrLookup T m.key = some r ∧ m.writtenAt ≤ r.writtenAt) →
    bulkUpsertWrittenRecordModels T ms = T := by
  induction ms with
  | nil => intro T _; rfl
  | cons a as ih =>
    intro T h
    obtain ⟨r, hr, hle⟩ := h a (List.mem_cons_self a as)
    have hstep : wrUpsertOne T a = T := wrUpsertOne_stale_id a T r hr hle
    have : bulkUpsertWrittenRecordModels T (a :: as)
        = bulkUpsertWrittenRecordModels (wrUpsertOne T a) as := rfl
    rw [this, hstep]
    exact ih T (fun m hm => h m (List.mem_cons_of_mem a hm))

/-! ## C3: accessed-record lemmas (mirror of the written-record ones) -/

theorem arUpsertOne_of_absent (m : AccessedRow) : ∀ t : List AccessedRow,
    arLookup t m.hashTag = none → arUpsertOne t m = t ++ [m] := by
  intro t
  induction t with
  | nil => intro _; rfl
  | cons a rest ih =>
    intro h
    by_cases hk : a.hashTag = m.hashTag
    · simp [arLookup, hk] at h
    · simp only [arLookup, if_neg hk] at h
      simp [arUpsertOne, hk, ih h]

theorem arUpsertOne_of_present (m : AccessedRow) : ∀ (t : List AccessedRow)
    (r : AccessedRow), arLookup t m.hashTag = some r →
    arLookup (arUpsertOne t m) m.hashTag
      = some { r with accessedAt := max r.accessedAt m.accessedAt } := by
  intro t
  induction t with
  | nil => intro r h; simp [arLookup] at h
  | cons a rest ih =>
    intro r h
    obtain ⟨ak, aw, ac⟩ := a
    by_cases hk : ak = m.hashTag
    · simp only [arLookup, if_pos hk, Option.some.injEq] at h
      subst h
      by_cases hlt : aw < m.accessedAt
      · simp [arUpsertOne, arLookup, hk, hlt, max_eq_right (le_of_lt hlt)]
      · simp [arUpsertOne, arLookup, hk, hlt, max_eq_left (not_lt.mp hlt)]
    · simp only [arLookup, if_neg hk] at h
      simp [arUpsertOne, arLookup, hk, ih r h]

theorem arUpsertOne_stale_id (m : AccessedRow) : ∀ (t : List AccessedRow)
    (r : AccessedRow), arLookup t m.hashTag = some r → m.accessedAt ≤ r.accessedAt →
    arUpsertOne t m = t := by
  intro t
  induction t with
  | nil => intro r h _; simp [arLookup] at h
  | cons a rest ih =>
    intro r h hle
    by_cases hk : a.hashTag = m.hashTag
    · simp only [arLookup, if_pos hk, Option.some.injEq] at h
      subst h
      simp [arUpsertOne, hk, not_lt.mpr hle]
    · simp only [arLookup, if_neg hk] at h
      simp [arUpsertOne, hk, ih r h hle]

theorem arLookup_arUpsertOne_other (m : AccessedRow) (k : String) (hk : k ≠ m.hashTag) :
    ∀ t : List AccessedRow, arLookup (arUpsertOne t m) k = arLookup t k := by
  have hmk : ¬ m.hashTag = k := fun h => hk h.symm
  intro t
  induction t with
  | nil =>
    simp [arUpsertOne, arLookup, hmk]
  | cons a rest ih =>
    by_cases hak : a.hashTag = m.hashTag
    · have hakk : ¬ a.hashTag = k := fun h => hk (h.symm.trans hak)
      by_cases hlt : a.accessedAt < m.accessedAt
      · simp [arUpsertOne, arLookup, hak, hlt, hakk, hmk]
      · simp [arUpsertOne, arLookup, hak, hlt, hakk, hmk]
    · by_cases hax : a.hashTag = k
      · simp [arUpsertOne, arLookup, hak, hax, hk]
      · simp [arUpsertOne, arLookup, hak, hax, ih]

theorem arLookup_append_none (m : AccessedRow) : ∀ t : List AccessedRow,
    arLookup t m.hashTag = none → arLookup (t ++ [m]) m.hashTag = some m := by
  intro t
  induction t with
  | nil => intro _; simp [arLookup]
  | cons a rest ih =>
    intro h
    by_cases hk : a.hashTag = m.hashTag
    · simp [arLookup, hk] at h
    · simp only [arLookup, if_neg hk] at h
      simp only [List.cons_append, arLookup, if_neg hk]
      exact ih h

theorem arUpsertOne_grows (m : AccessedRow) (t : List AccessedRow) (k : String)
    (r : AccessedRow) (h : arLookup t k = some r) :
    ∃ r', arLookup (arUpsertOne t m) k = some r' ∧ r.accessedAt ≤ r'.accessedAt := by
  by_cases hk : k = m.hashTag
  · subst hk
    exact ⟨{ r with accessedAt := max r.accessedAt m.accessedAt },
      arUpsertOne_of_present m t r h, le_max_left _ _⟩
  · exact ⟨r, by rw [arLookup_arUpsertOne_other m k hk t]; exact h, le_refl _⟩

theorem arUpsertOne_incoming_le (m : AccessedRow) (t : List AccessedRow) :
    ∃ r', arLookup (arUpsertOne t m) m.hashTag = some r' ∧
      m.accessedAt ≤ r'.accessedAt := by
  cases hl : arLookup t m.hashTag with
  | none =>
    refine ⟨m, ?_, le_refl _⟩
    rw [arUpsertOne_of_absent m t hl]
    exact arLookup_append_none m t hl
  | some r =>
    exact ⟨{ r with accessedAt := max r.accessedAt m.accessedAt },
      arUpsertOne_of_present m t r hl, le_max_right _ _⟩

theorem bulkUpsertAccessed_grows (ms : List AccessedRow) : ∀ (t : List AccessedRow)
    (k : String) (r : AccessedRow), arLookup t k = some r →
    ∃ r', arLookup (bulkUpsertAccessedRecordModelsV2 t ms) k = some r' ∧
      r.accessedAt ≤ r'.accessedAt := by
  induction ms with
  | nil => intro t k r h; exact ⟨r, h, le_refl _⟩
  | cons a as ih =>
    intro t k r h
    obtain ⟨r1, h1, hle1⟩ := arUpsertOne_grows a t k r h
    obtain ⟨r', h', hle'⟩ := ih (arUpsertOne t a) k r1 h1
    exact ⟨r', h', le_trans hle1 hle'⟩

theorem bulkUpsertAccessed_mem_le (ms : List AccessedRow) : ∀ (t : List AccessedRow)
    (m : AccessedRow), m ∈ ms →
    ∃ r', arLookup (bulkUpsertAccessedRecordModelsV2 t ms) m.hashTag = some r' ∧
      m.accessedAt ≤ r'.accessedAt := by
  induction ms with
  | nil => intro t m hm; cases hm
  | cons a as ih =>
    intro t m hm
    rcases List.mem_cons.mp hm with rfl | hm'
    · obtain ⟨r1, h1, hle1⟩ := arUpsertOne_incoming_le m t
      obtain ⟨r', h', hle'⟩ := bulkUpsertAccessed_grows as (arUpsertOne t m) m.hashTag r1 h1
      exact ⟨r', h', le_trans hle1 hle'⟩
    · exact ih (arUpsertOne t a) m hm'

theorem bulkUpsertAccessed_id_of_stale (ms : List AccessedRow) : ∀ T : List AccessedRow,
    (∀ m ∈ ms, ∃ r, arLookup T m.hashTag = some r ∧ m.accessedAt ≤ r.accessedAt) →
    bulkUpsertAccessedRecordModelsV2 T ms = T := by
  induction ms with
  | nil => intro T _; rfl
  | cons a as ih =>
    intro T h
    obtain ⟨r, hr, hle⟩ := h a (List.mem_cons_self a as)
    have hstep : arUpsertOne T a = T := arUpsertOne_stale_id a T r hr hle
    have : bulkUpsertAccessedRecordModelsV2 T (a :: as)
        = bulkUpsertAccessedRecordModelsV2 (arUpsertOne T a) as := rfl
    rw [this, hstep]
    exact ih T (fun m hm => h m (List.mem_cons_of_mem a hm))

/-- C3: for both record kinds (written records keyed by full key, accessed
records keyed by hash tag), the stored timestamp after an upsert is
`max(existing.ts, incoming.ts)` on conflict and `incoming.ts` on a fresh key;
a stale or equal incoming timestamp leaves the table unchanged; and
re-applying the same batch is idempotent. -/
theorem bulk_upsert_records_max_wins :
    (∀ (t : List WrittenRow) (m r : WrittenRow), wrLookup t m.key = some r →
      wrLookup (wrUpsertOne t m) m.key
        = some { r with writtenAt := max r.writtenAt m.writtenAt }) ∧
    (∀ (t : List WrittenRow) (m : WrittenRow), wrLookup t m.key = none →
      wrUpsertOne t m = t ++ [m]) ∧
    (∀ (t : List WrittenRow) (m r : WrittenRow), wrLookup t m.key = some r →
      m.writtenAt ≤ r.writtenAt → wrUpsertOne t m = t) ∧
    (∀ (t ms : List WrittenRow),
      bulkUpsertWrittenRecordModels (bulkUpsertWrittenRecordModels t ms) ms
        = bulkUpsertWrittenRecordModels t ms) ∧
    (∀ (t : List AccessedRow) (m r : AccessedRow), arLookup t m.hashTag = some r →
      arLookup (arUpsertOne t m) m.hashTag
        = some { r with accessedAt := max r.accessedAt m.accessedAt }) ∧
    (∀ (t : List AccessedRow) (m : AccessedRow), arLookup t m.hashTag = none →
      arUpsertOne t m = t ++ [m]) ∧
    (∀ (t : List AccessedRow) (m r : AccessedRow), arLookup t m.hashTag = some r →
      m.accessedAt ≤ r.accessedAt → arUpsertOne t m = t) ∧
    (∀ (t ms : List AccessedRow),
      bulkUpsertAccessedRecordModelsV2 (bulkUpsertAccessedRecordModelsV2 t ms) ms
        = bulkUpsertAccessedRecordModelsV2 t ms) := by
  refine ⟨fun t m r h => wrUpsertOne_of_present m t r h,
          fun t m h => wrUpsertOne_of_absent m t h,
          fun t m r h hle => wrUpsertOne_stale_id m t r h hle,
          ?_,
          fun t m r h => arUpsertOne_of_present m t r h,
          fun t m h => arUpsertOne_of_absent m t h,
          fun t m r h hle => arUpsertOne_stale_id m t r h hle,
          ?_⟩
  · intro t ms
    exact bulkUpsertWritten_id_of_stale ms (bulkUpsertWrittenRecordModels t ms)
      (fun m hm => by
        obtain ⟨r', h', hle'⟩ := bulkUpsertWritten_mem_le ms t m hm
        exact ⟨r', h', hle'⟩)
  · intro t ms
    exact bulkUpsertAccessed_id_of_stale ms (bulkUpsertAccessedRecordModelsV2 t ms)
      (fun m hm => by
        obtain ⟨r', h', hle'⟩ := bulkUpsertAccessed_mem_le ms t m hm
        exact ⟨r', h', hle'⟩)

/-- C3 witness: a newer incoming written record replaces the stored timestamp
(`max 5 9 = 9`); a stale incoming accessed record leaves the table unchanged;
a concrete two-row batch is idempotent. -/
theorem bulk_upsert_records_max_wins_witness :
    wrLookup (wrUpsertOne [WrittenRow.mk ("k") 5 0] (WrittenRow.mk ("k") 9 1))
        ("k") = some (WrittenRow.mk ("k") (max 5 9) 0) ∧
    arUpsertOne [AccessedRow.mk ("h") 7 0] (AccessedRow.mk ("h") 7 1)
        = [AccessedRow.mk ("h") 7 0] ∧
    bulkUpsertWrittenRecordModels
        (bulkUpsertWrittenRecordModels [] [WrittenRow.mk ("a") 3 0, WrittenRow.mk ("b") 4 0])
        [WrittenRow.mk ("a") 3 0, WrittenRow.mk ("b") 4 0]
      = bulkUpsertWrittenRecordModels [] [WrittenRow.mk ("a") 3 0, WrittenRow.mk ("b") 4 0] := by
  refine ⟨?_, ?_, ?_⟩
  · exact bulk_upsert_records_max_wins.1 [WrittenRow.mk ("k") 5 0]
      (WrittenRow.mk ("k") 9 1) (WrittenRow.mk ("k") 5 0) (by decide)
  · exact bulk_upsert_records_max_wins.2.2.2.2.2.2.1 [AccessedRow.mk ("h") 7 0]
      (AccessedRow.mk ("h") 7 1) (AccessedRow.mk ("h") 7 0) (by decide) (by decide)
  · exact bulk_upsert_records_max_wins.2.2.2.1 []
      [WrittenRow.mk ("a") 3 0, WrittenRow.mk ("b") 4 0]

end Room
